import Mathlib

/-!
Verification of the `astar` grid path-finding engine (Go, package `astar`).

The engine's source consists of `astar.go` (search engine) and a `Node`
definition file.  The `List` working-set container used by the engine is not
part of the provided sources; its operations are modelled from the
specification (§4.1) and are marked `Modelled from the spec:` below.

Machine integers: Go's `int` is modelled as `Int` (no query in scope
approaches overflow, and the engine performs no wrapping arithmetic).
`math.Abs` on values converted from `int` is exact for all inputs in scope,
so `H` is modelled as exact integer absolute values.
-/

/-- `Node` from the node source file: coordinates, the scoring fields
`f g h`, the terrain `Weighting`, and the `parent` pointer used for path
reconstruction (a Go `*Node`, modelled as `Option Node`). -/
inductive Node where
  | mk (f g h x y weighting : Int) (parent : Option Node)

/-- Equality of `Node` values is decidable (the parent chain is finite). -/
def Node.decEq : (a b : Node) → Decidable (a = b)
  | .mk f1 g1 h1 x1 y1 w1 none, .mk f2 g2 h2 x2 y2 w2 none =>
    decidable_of_iff (f1 = f2 ∧ g1 = g2 ∧ h1 = h2 ∧ x1 = x2 ∧ y1 = y2 ∧ w1 = w2)
      (by
        constructor
        · rintro ⟨rfl, rfl, rfl, rfl, rfl, rfl⟩; rfl
        · intro h
          injection h with e1 e2 e3 e4 e5 e6 e7
          exact ⟨e1, e2, e3, e4, e5, e6⟩)
  | .mk _ _ _ _ _ _ none, .mk _ _ _ _ _ _ (some _) =>
    isFalse (by
      intro h
      injection h with e1 e2 e3 e4 e5 e6 e7
      exact Option.noConfusion e7)
  | .mk _ _ _ _ _ _ (some _), .mk _ _ _ _ _ _ none =>
    isFalse (by
      intro h
      injection h with e1 e2 e3 e4 e5 e6 e7
      exact Option.noConfusion e7)
  | .mk f1 g1 h1 x1 y1 w1 (some p), .mk f2 g2 h2 x2 y2 w2 (some q) =>
    match Node.decEq p q with
    | isTrue hpq =>
      decidable_of_iff (f1 = f2 ∧ g1 = g2 ∧ h1 = h2 ∧ x1 = x2 ∧ y1 = y2 ∧ w1 = w2)
        (by
          constructor
          · rintro ⟨rfl, rfl, rfl, rfl, rfl, rfl⟩; rw [hpq]
          · intro h
            injection h with e1 e2 e3 e4 e5 e6 e7
            exact ⟨e1, e2, e3, e4, e5, e6⟩)
    | isFalse hpq =>
      isFalse (by
        intro h
        injection h with e1 e2 e3 e4 e5 e6 e7
        injection e7 with e8
        exact hpq e8)

instance : DecidableEq Node := Node.decEq

/-- Field accessor for `Node.f`. -/
def Node.f : Node → Int
  | .mk f _ _ _ _ _ _ => f

/-- Field accessor for `Node.g`. -/
def Node.g : Node → Int
  | .mk _ g _ _ _ _ _ => g

/-- Field accessor for `Node.h`. -/
def Node.h : Node → Int
  | .mk _ _ h _ _ _ _ => h

/-- Field accessor for `Node.X`. -/
def Node.x : Node → Int
  | .mk _ _ _ x _ _ _ => x

/-- Field accessor for `Node.Y`. -/
def Node.y : Node → Int
  | .mk _ _ _ _ y _ _ => y

/-- Field accessor for `Node.Weighting`. -/
def Node.weighting : Node → Int
  | .mk _ _ _ _ _ w _ => w

/-- Field accessor for `Node.parent`. -/
def Node.parent : Node → Option Node
  | .mk _ _ _ _ _ _ p => p

/-- `Config` from `astar.go`: grid size, permanently invalid cells and
weighted cells. -/
structure Config where
  GridWidth : Int
  GridHeight : Int
  InvalidNodes : List Node
  WeightedNodes : List Node

/-- `IContext` from `astar.go`: the host-supplied dynamic capability.  A Go
`nil` interface value is modelled as `Option IContext = none`. -/
structure IContext where
  IsInBlock : Int → Int → Bool
  IsNearEnough : Int → Int → Bool

/-- Coordinate identity used by the working-set container: membership is
keyed by `(X, Y)` only. -/
def sameCoord (m n : Node) : Bool :=
  m.x == n.x && m.y == n.y

/-- Modelled from the spec: the working-set container's `Add` (its source
file is not under `src/`).  §4.1: inserts, without duplicate enforcement;
the set is kept in insertion order. -/
def wsAdd (l : List Node) (n : Node) : List Node :=
  l ++ [n]

/-- Modelled from the spec: the container's `Add` over several nodes at
once (used by `init` for the invalid-cell seed). -/
def wsAddMany (l : List Node) (ns : List Node) : List Node :=
  l ++ ns

/-- Modelled from the spec: the container's `Contains`.  §4.1/§3: true iff
a node with the same coordinates is present; cost fields are ignored. -/
def wsContains (l : List Node) (n : Node) : Bool :=
  l.any fun m => sameCoord m n

/-- Modelled from the spec: the container's `Remove`.  §4.1: deletes the
entry matching the node's coordinates; no-op if absent. -/
def wsRemove (l : List Node) (n : Node) : List Node :=
  l.filter fun m => !sameCoord m n

/-- Modelled from the spec: the container's `IsEmpty`. -/
def wsIsEmpty (l : List Node) : Bool :=
  l.isEmpty

/-- Modelled from the spec: the container's `GetMinFNode` (`extract_min`).
§4.1: returns, without removing, the node of smallest `f`; ties are broken
by insertion order (first inserted wins); fails on an empty set (`none`
models the `EmptySet` error condition). -/
def GetMinFNode : List Node → Option Node
  | [] => none
  | n :: rest =>
    match GetMinFNode rest with
    | none => some n
    | some m => if m.f < n.f then some m else some n

/-- `PathFinder` from `astar.go`: configuration, the two working sets, the
per-query start/end nodes and the step counter. -/
structure PathFinder where
  config : Config
  openList : List Node
  closedList : List Node
  startNode : Node
  endNode : Node
  steps : Int

/-- The zero value of Go's `Node` struct (initial `startNode`/`endNode`
of a freshly constructed `PathFinder`). -/
def zeroNode : Node :=
  .mk 0 0 0 0 0 0 none

/-- `StepsNoLimit` from `astar.go`. -/
def StepsNoLimit : Int := -1

/-- `init` from `astar.go`: adds the configured invalid nodes directly to
the closed list. -/
def init (a : PathFinder) : PathFinder :=
  { a with closedList := wsAddMany a.closedList a.config.InvalidNodes }

/-- `New` from `astar.go`: rejects a grid smaller than 2×2, otherwise
builds the engine and runs `init`.  The construction error is modelled as
`none`. -/
def New (config : Config) : Option PathFinder :=
  if config.GridWidth < 2 ∨ config.GridHeight < 2 then none
  else some (init { config := config, openList := [], closedList := [],
                    startNode := zeroNode, endNode := zeroNode, steps := 0 })

/-- `H` from `astar.go`: Manhattan distance between the two nodes. -/
def H (nodeA nodeB : Node) : Int :=
  ((nodeA.x - nodeB.x).natAbs : Int) + ((nodeA.y - nodeB.y).natAbs : Int)

/-- `isAccessible` from `astar.go`: bounds check, then the optional
context's block check, then the closed-list check. -/
def isAccessible (a : PathFinder) (ctx : Option IContext) (node : Node) : Bool :=
  if node.x < 0 ∨ node.y < 0 ∨ node.x > a.config.GridWidth - 1 ∨
      node.y > a.config.GridHeight - 1 then
    false
  else if (match ctx with
           | some c => c.IsInBlock node.x node.y
           | none => false) then
    false
  else if wsContains a.closedList node then
    false
  else
    true

/-- `GetNeighborNodes` from `astar.go`: the four axis-aligned neighbors in
the fixed order up, down, left, right, each stamped with the expanded node
as parent (all other fields are Go zero values), filtered by
`isAccessible`. -/
def GetNeighborNodes (a : PathFinder) (ctx : Option IContext) (node : Node) :
    List Node :=
  let upNode : Node := .mk 0 0 0 node.x (node.y + 1) 0 (some node)
  let downNode : Node := .mk 0 0 0 node.x (node.y - 1) 0 (some node)
  let leftNode : Node := .mk 0 0 0 (node.x - 1) node.y 0 (some node)
  let rightNode : Node := .mk 0 0 0 (node.x + 1) node.y 0 (some node)
  [upNode, downNode, leftNode, rightNode].filter fun n => isAccessible a ctx n

/-- `IsEndNode` from `astar.go`: the context's near-enough test if a
context is present, otherwise (or failing that) exact coordinate equality
with the end node. -/
def IsEndNode (ctx : Option IContext) (checkNode endNode : Node) : Bool :=
  (match ctx with
   | some c => c.IsNearEnough checkNode.x checkNode.y
   | none => false)
  || (checkNode.x == endNode.x && checkNode.y == endNode.y)

/-- `calculateNode` from `astar.go`: increments the node's own `g`, adds
the weighting of every configured weighted cell matching the node's
coordinates, then computes `h` against the engine's stored end node and
`f = g + h`. -/
def calculateNode (a : PathFinder) (node : Node) : Node :=
  let g := node.g + 1
  let g := a.config.WeightedNodes.foldl
    (fun acc w => if node.x == w.x && node.y == w.y then acc + w.weighting else acc) g
  let h := H node a.endNode
  .mk (g + h) g h node.x node.y node.weighting node.parent

/-- The tail of `getNodePath`'s result: walks the parent chain, stopping
before a parent that itself has no parent (the start node is not
emitted). -/
def getNodePathRest : Node → List Node
  | .mk _ _ _ _ _ _ none => []
  | .mk _ _ _ _ _ _ (some p) =>
    match p with
    | .mk _ _ _ _ _ _ none => []
    | .mk pf pg ph px py pw (some pp) =>
      Node.mk pf pg ph px py pw (some pp) ::
        getNodePathRest (Node.mk pf pg ph px py pw (some pp))

/-- `getNodePath` from `astar.go`: the given node followed by its ancestor
chain, excluding the parentless node that ends the chain. -/
def getNodePath (currentNode : Node) : List Node :=
  currentNode :: getNodePathRest currentNode

/-- The inner neighbor loop of `doFindPath`: for each neighbor, skip it if
its coordinates are closed, otherwise score it with `calculateNode` and add
it to the open list unless a node with the same coordinates is already
open. -/
def addNeighbors (a : PathFinder) : List Node → List Node → List Node
  | [], openL => openL
  | nb :: rest, openL =>
    if wsContains a.closedList nb then addNeighbors a rest openL
    else if wsContains openL (calculateNode a nb) then addNeighbors a rest openL
    else addNeighbors a rest (wsAdd openL (calculateNode a nb))

/-- The result of a query: the returned node slice, or one of the error
returns of `doFindPath` (`ErrorNoPath`, or the wrapped `GetMinFNode`
error).  `fuelOut` is an artifact of the fuelled embedding of the Go
`for` loop and stands for no behavior of the source. -/
inductive FindResult where
  | ok (path : List Node)
  | noPath
  | minFError
  | fuelOut
deriving DecidableEq

/-- The engine state right after an iteration's extraction bookkeeping:
the current node removed from the open list, added to the closed list, and
the step counter incremented. -/
def midState (a : PathFinder) (currentNode : Node) : PathFinder :=
  { a with openList := wsRemove a.openList currentNode,
           closedList := wsAdd a.closedList currentNode,
           steps := a.steps + 1 }

/-- The engine state at the end of a full (non-returning) iteration: the
bookkeeping of `midState` followed by the neighbor expansion of the
current node into the open list. -/
def postState (ctx : Option IContext) (a : PathFinder) (currentNode : Node) :
    PathFinder :=
  let a := midState a currentNode
  { a with openList := addNeighbors a (GetNeighborNodes a ctx currentNode) a.openList }

/-- The `for !a.openList.IsEmpty()` loop of `doFindPath`, with the engine
state threaded explicitly and a fuel bound on the iteration count.  One
iteration: extract the minimum-`f` node, remove it from open, add it to
closed, count the step; return the reconstructed path on the goal test or
on a reached step budget; otherwise expand the neighbors into the open
list. -/
def searchLoop (ctx : Option IContext) (maxSteps : Int) :
    Nat → PathFinder → FindResult × PathFinder
  | 0, a => (.fuelOut, a)
  | fuel + 1, a =>
    if wsIsEmpty a.openList then (.noPath, a)
    else
      match GetMinFNode a.openList with
      | none => (.minFError, a)
      | some currentNode =>
        if IsEndNode ctx currentNode a.endNode then
          (.ok (getNodePath currentNode), midState a currentNode)
        else if maxSteps > 0 ∧ (midState a currentNode).steps ≥ maxSteps then
          (.ok (getNodePath currentNode), midState a currentNode)
        else
          searchLoop ctx maxSteps fuel (postState ctx a currentNode)

/-- The state of the engine at the top of the search loop: start/end
stored, step counter reset, the start node added to the open list. -/
def initState (a : PathFinder) (startNode endNode : Node) : PathFinder :=
  { a with startNode := startNode, endNode := endNode, steps := 0,
           openList := wsAdd a.openList startNode }

/-- The fuel passed to the loop: one iteration closes one (new) cell, so
the grid size bounds the iteration count of the Go loop. -/
def loopFuel (a : PathFinder) : Nat :=
  (a.config.GridWidth * a.config.GridHeight).toNat + 1

/-- `doFindPath` from `astar.go`: store the query, add the start node,
run the loop; the deferred cleanup clears both working sets on every exit
path. -/
def doFindPath (a : PathFinder) (ctx : Option IContext)
    (startNode endNode : Node) (maxSteps : Int) : FindResult × PathFinder :=
  let a := initState a startNode endNode
  let r := searchLoop ctx maxSteps (loopFuel a) a
  (r.1, { r.2 with openList := [], closedList := [] })

/-- `FindPath` from `astar.go`. -/
def FindPath (a : PathFinder) (ctx : Option IContext) (startNode endNode : Node) :
    FindResult × PathFinder :=
  doFindPath a ctx startNode endNode StepsNoLimit

/-- `FindPathEx` from `astar.go`. -/
def FindPathEx (a : PathFinder) (ctx : Option IContext) (startNode endNode : Node)
    (maxSteps : Int) : FindResult × PathFinder :=
  doFindPath a ctx startNode endNode maxSteps

/-- One iteration of the search loop as a bare state step, ignoring the
goal test and the step budget: `some (extracted node, next state)` while
the open set is non-empty, `none` once it is exhausted.  Used to speak of
"the node extracted on the k-th expansion step". -/
def stepNext (ctx : Option IContext) (a : PathFinder) : Option (Node × PathFinder) :=
  if wsIsEmpty a.openList then none
  else
    match GetMinFNode a.openList with
    | none => none
    | some currentNode => some (currentNode, postState ctx a currentNode)

/-- The engine state reached after `j` full loop iterations (ignoring the
goal test and the step budget), starting from `a`. -/
def traceStates (ctx : Option IContext) (a : PathFinder) : Nat → Option PathFinder
  | 0 => some a
  | j + 1 =>
    match traceStates ctx a j with
    | none => none
    | some t => (stepNext ctx t).map Prod.snd

/-- The node extracted from the open set on loop iteration `j` (0-based),
starting from `a`. -/
def extractedAt (ctx : Option IContext) (a : PathFinder) (j : Nat) : Option Node :=
  match traceStates ctx a j with
  | none => none
  | some t => (stepNext ctx t).map Prod.fst

/-- One iteration of the search loop as a guarded state step: `some` of
the next state when the iteration runs in full, `none` when the iteration
would exit the loop (empty open set, extraction failure, goal reached, or
step budget reached). -/
def stepAdvance (ctx : Option IContext) (maxSteps : Int) (a : PathFinder) :
    Option PathFinder :=
  if wsIsEmpty a.openList then none
  else
    match GetMinFNode a.openList with
    | none => none
    | some currentNode =>
      if IsEndNode ctx currentNode a.endNode then none
      else if maxSteps > 0 ∧ (midState a currentNode).steps ≥ maxSteps then none
      else some (postState ctx a currentNode)

/-- `j`-fold iteration of `stepAdvance`. -/
def advance (ctx : Option IContext) (maxSteps : Int) : Nat → PathFinder → Option PathFinder
  | 0, a => some a
  | j + 1, a =>
    match stepAdvance ctx maxSteps a with
    | none => none
    | some a2 => advance ctx maxSteps j a2

/-- Manhattan distance between two nodes' coordinates (the spec's path
length measure). -/
def manhattan (a b : Node) : Nat :=
  (a.x - b.x).natAbs + (a.y - b.y).natAbs

/-- Two nodes occupy 4-adjacent cells. -/
def adjacent (a b : Node) : Prop :=
  manhattan a b = 1

/-- The coordinate sequence of a query result (for stating concrete
expected outputs). -/
def resultCoords : FindResult → Option (List (Int × Int))
  | .ok p => some (p.map fun n => (n.x, n.y))
  | _ => none

/-- A well-formed search ancestry chain for the obstacle-free analysis:
walking the parent chain from this node, every link is 4-adjacent, every
parent is one Manhattan step further from the end node `e`, and the chain
is anchored at exactly the start node `s`. -/
def goodChain (s e : Node) : Node → Prop
  | .mk f g h x y w none => Node.mk f g h x y w none = s
  | .mk f g h x y w (some p) =>
    adjacent (Node.mk f g h x y w (some p)) p ∧
    manhattan p e = manhattan (Node.mk f g h x y w (some p)) e + 1 ∧
    goodChain s e p

/-- The loop invariant of the obstacle-free, unweighted, context-free
descent analysis, at the top of an iteration whose minimum open Manhattan
distance to the end node is `r`: the engine carries no weighted cells and
end node `e` (in bounds); every open node is in bounds and scored
`g = 1`, `h = manhattan`, `f = 1 + manhattan` with distance at least `r`,
the distance-`r` open nodes carry well-formed ancestry chains, a
distance-`r` open node exists, and every closed node is strictly further
than `r`. -/
def descInv (s e : Node) (r : Nat) (t : PathFinder) : Prop :=
  t.config.WeightedNodes = [] ∧
  t.endNode = e ∧
  (0 ≤ e.x ∧ e.x ≤ t.config.GridWidth - 1 ∧ 0 ≤ e.y ∧
    e.y ≤ t.config.GridHeight - 1) ∧
  (∀ n ∈ t.openList,
    (0 ≤ n.x ∧ n.x ≤ t.config.GridWidth - 1 ∧ 0 ≤ n.y ∧
      n.y ≤ t.config.GridHeight - 1) ∧
    n.g = 1 ∧ n.h = (manhattan n e : Int) ∧ n.f = 1 + (manhattan n e : Int) ∧
    r ≤ manhattan n e ∧
    (manhattan n e = r → goodChain s e n)) ∧
  (∃ n ∈ t.openList, manhattan n e = r) ∧
  (∀ n ∈ t.closedList, r + 1 ≤ manhattan n e)

/-- A host-constructed query node: only coordinates set, every other field
at its Go zero value (the cost fields and the parent pointer are not
exported to hosts). -/
def nodeAt (x y : Int) : Node :=
  .mk 0 0 0 x y 0 none

/-- A 3x3 grid with no invalid and no weighted cells. -/
def cfg3 : Config :=
  ⟨3, 3, [], []⟩

/-- The engine `New cfg3` constructs. -/
def pf3 : PathFinder :=
  ⟨cfg3, [], [], zeroNode, zeroNode, 0⟩

/-- A 3x3 grid whose cell (1,0) is permanently invalid. -/
def cfgInv : Config :=
  ⟨3, 3, [nodeAt 1 0], []⟩

/-- The engine `New cfgInv` constructs: the invalid cell is seeded into
the closed list. -/
def pfInv : PathFinder :=
  ⟨cfgInv, [], [nodeAt 1 0], zeroNode, zeroNode, 0⟩

/-- A node as the search produces it on the 3x3 grid with end (2,2):
cell (0,1) reached from the start (0,0), scored `g = 1`, `h = 3`,
`f = 4`. -/
def ancNode : Node :=
  .mk 4 1 3 0 1 0 (some (nodeAt 0 0))

/-- The engine state of the `cfg3` query toward (2,2) at the moment
`ancNode` is expanded: (0,0) and (0,1) are closed. -/
def pfC1 : PathFinder :=
  { config := cfg3, openList := [], closedList := [nodeAt 0 0, ancNode],
    startNode := nodeAt 0 0, endNode := nodeAt 2 2, steps := 2 }

/-! ### Basic lemmas about the container and node operations -/

theorem sameCoord_iff (m n : Node) : sameCoord m n = true ↔ m.x = n.x ∧ m.y = n.y := by
  simp [sameCoord]

theorem sameCoord_self (n : Node) : sameCoord n n = true := by
  simp [sameCoord]

theorem wsContains_iff (l : List Node) (n : Node) :
    wsContains l n = true ↔ ∃ m ∈ l, sameCoord m n = true := by
  simp [wsContains]

theorem wsContains_false (l : List Node) (n : Node) :
    wsContains l n = false ↔ ∀ m ∈ l, sameCoord m n = false := by
  simp [wsContains]

theorem mem_wsAdd (l : List Node) (n m : Node) :
    m ∈ wsAdd l n ↔ m ∈ l ∨ m = n := by
  simp [wsAdd]

theorem mem_wsRemove (l : List Node) (n m : Node) :
    m ∈ wsRemove l n ↔ m ∈ l ∧ sameCoord m n = false := by
  simp [wsRemove]

theorem wsIsEmpty_false (l : List Node) : wsIsEmpty l = false ↔ l ≠ [] := by
  simp [wsIsEmpty, List.isEmpty_iff]

theorem GetMinFNode_eq_none {l : List Node} : GetMinFNode l = none ↔ l = [] := by
  cases l with
  | nil => simp [GetMinFNode]
  | cons a rest =>
    simp only [GetMinFNode]
    constructor
    · intro h
      split at h
      · simp at h
      · split at h <;> simp at h
    · intro h
      simp at h

theorem GetMinFNode_mem {l : List Node} {n : Node} (h : GetMinFNode l = some n) :
    n ∈ l := by
  induction l with
  | nil => simp [GetMinFNode] at h
  | cons a rest ih =>
    rw [GetMinFNode] at h
    split at h
    · simp at h
      simp [h]
    · rename_i m hr
      split at h
      · simp at h
        subst h
        exact List.mem_cons_of_mem _ (ih hr)
      · simp at h
        simp [h]

theorem GetMinFNode_min :
    ∀ {l : List Node} {n : Node}, GetMinFNode l = some n → ∀ m ∈ l, n.f ≤ m.f := by
  intro l
  induction l with
  | nil => intro n h; simp [GetMinFNode] at h
  | cons a rest ih =>
    intro n h
    rw [GetMinFNode] at h
    split at h
    · rename_i hr
      rw [GetMinFNode_eq_none] at hr
      subst hr
      simp at h
      subst h
      simp
    · rename_i m hr
      have hmin := ih hr
      split at h
      · rename_i hf
        simp at h
        subst h
        intro x hx
        rcases List.mem_cons.mp hx with rfl | hx
        · omega
        · exact hmin x hx
      · rename_i hf
        simp at h
        subst h
        intro x hx
        rcases List.mem_cons.mp hx with rfl | hx
        · omega
        · exact le_trans (by omega) (hmin x hx)

theorem GetMinFNode_of_ne_nil {l : List Node} (h : l ≠ []) :
    ∃ n, GetMinFNode l = some n := by
  rcases hm : GetMinFNode l with _ | n
  · exact absurd (GetMinFNode_eq_none.mp hm) h
  · exact ⟨n, rfl⟩

/-! ### Lemmas about neighbor generation, scoring and path reconstruction -/

theorem mem_GetNeighborNodes {a : PathFinder} {ctx : Option IContext} {node n : Node} :
    n ∈ GetNeighborNodes a ctx node ↔
      (n = .mk 0 0 0 node.x (node.y + 1) 0 (some node) ∨
       n = .mk 0 0 0 node.x (node.y - 1) 0 (some node) ∨
       n = .mk 0 0 0 (node.x - 1) node.y 0 (some node) ∨
       n = .mk 0 0 0 (node.x + 1) node.y 0 (some node)) ∧
      isAccessible a ctx n = true := by
  simp [GetNeighborNodes, List.mem_filter]

theorem GetNeighborNodes_parent {a : PathFinder} {ctx : Option IContext} {node n : Node}
    (h : n ∈ GetNeighborNodes a ctx node) : n.parent = some node := by
  rcases (mem_GetNeighborNodes.mp h).1 with rfl | rfl | rfl | rfl <;> rfl

theorem GetNeighborNodes_g {a : PathFinder} {ctx : Option IContext} {node n : Node}
    (h : n ∈ GetNeighborNodes a ctx node) : n.g = 0 := by
  rcases (mem_GetNeighborNodes.mp h).1 with rfl | rfl | rfl | rfl <;> rfl

theorem GetNeighborNodes_adjacent {a : PathFinder} {ctx : Option IContext} {node n : Node}
    (h : n ∈ GetNeighborNodes a ctx node) : adjacent n node := by
  rcases (mem_GetNeighborNodes.mp h).1 with rfl | rfl | rfl | rfl <;>
    simp [adjacent, manhattan, Node.x, Node.y]

theorem isAccessible_inBounds {a : PathFinder} {ctx : Option IContext} {n : Node}
    (h : isAccessible a ctx n = true) :
    0 ≤ n.x ∧ n.x ≤ a.config.GridWidth - 1 ∧ 0 ≤ n.y ∧ n.y ≤ a.config.GridHeight - 1 := by
  rw [isAccessible.eq_def] at h
  split at h
  · simp at h
  · rename_i hb
    push_neg at hb
    omega

theorem isAccessible_not_closed {a : PathFinder} {ctx : Option IContext} {n : Node}
    (h : isAccessible a ctx n = true) : wsContains a.closedList n = false := by
  rw [isAccessible.eq_def] at h
  split at h
  · simp at h
  · split at h
    · simp at h
    · split at h
      · simp at h
      · rename_i hc
        simp at hc
        exact hc

theorem calculateNode_x (a : PathFinder) (n : Node) : (calculateNode a n).x = n.x := by
  rcases n with ⟨f, g, h, x, y, w, p⟩
  rfl

theorem calculateNode_y (a : PathFinder) (n : Node) : (calculateNode a n).y = n.y := by
  rcases n with ⟨f, g, h, x, y, w, p⟩
  rfl

theorem calculateNode_parent (a : PathFinder) (n : Node) :
    (calculateNode a n).parent = n.parent := by
  rcases n with ⟨f, g, h, x, y, w, p⟩
  rfl

theorem calculateNode_sameCoord (a : PathFinder) (n : Node) :
    sameCoord (calculateNode a n) n = true := by
  simp [sameCoord, calculateNode_x, calculateNode_y]

theorem calculateNode_g_of_no_weights {a : PathFinder}
    (hw : a.config.WeightedNodes = []) (n : Node) :
    (calculateNode a n).g = n.g + 1 := by
  rcases n with ⟨f, g, h, x, y, w, p⟩
  simp [calculateNode, hw, Node.g]

theorem calculateNode_h (a : PathFinder) (n : Node) :
    (calculateNode a n).h = H n a.endNode := by
  rcases n with ⟨f, g, h, x, y, w, p⟩
  rfl

theorem calculateNode_f (a : PathFinder) (n : Node) :
    (calculateNode a n).f = (calculateNode a n).g + (calculateNode a n).h := by
  rcases n with ⟨f, g, h, x, y, w, p⟩
  rfl

theorem getNodePath_parentless {n : Node} (h : n.parent = none) :
    getNodePath n = [n] := by
  rcases n with ⟨f, g, hh, x, y, w, _ | p⟩
  · rfl
  · simp [Node.parent] at h

theorem getNodePath_head (n : Node) : (getNodePath n).head? = some n := rfl

theorem getNodePath_ne_nil (n : Node) : getNodePath n ≠ [] := by
  simp [getNodePath]

theorem getNodePathRest_parent_ne : (n : Node) → ∀ m ∈ getNodePathRest n, m.parent ≠ none
  | .mk _ _ _ _ _ _ none => by simp [getNodePathRest]
  | .mk f g h x y w (some p) => by
    have ih := getNodePathRest_parent_ne p
    rcases p with ⟨pf, pg, ph, px, py, pw, _ | pp⟩
    · simp [getNodePathRest]
    · simp only [getNodePathRest]
      intro m hm
      rcases List.mem_cons.mp hm with rfl | hm
      · simp [Node.parent]
      · exact ih m hm

theorem getNodePath_chain : (n : Node) →
    List.Chain' (fun a b => a.parent = some b) (getNodePath n)
  | .mk _ _ _ _ _ _ none => by simp [getNodePath, getNodePathRest]
  | .mk f g h x y w (some p) => by
    have ih := getNodePath_chain p
    rcases p with ⟨pf, pg, ph, px, py, pw, _ | pp⟩
    · simp [getNodePath, getNodePathRest]
    · simp only [getNodePath, getNodePathRest]
      simp only [getNodePath, getNodePathRest] at ih
      exact List.chain'_cons.mpr ⟨rfl, ih⟩

theorem addNeighbors_subset (a : PathFinder) :
    ∀ (nbs openL : List Node) (m : Node), m ∈ openL → m ∈ addNeighbors a nbs openL := by
  intro nbs
  induction nbs with
  | nil => intro openL m hm; exact hm
  | cons nb rest ih =>
    intro openL m hm
    rw [addNeighbors]
    split
    · exact ih openL m hm
    · split
      · exact ih openL m hm
      · exact ih _ m ((mem_wsAdd _ _ _).mpr (Or.inl hm))

theorem mem_addNeighbors (a : PathFinder) :
    ∀ (nbs openL : List Node) (m : Node), m ∈ addNeighbors a nbs openL →
      m ∈ openL ∨ ∃ c ∈ nbs, m = calculateNode a c := by
  intro nbs
  induction nbs with
  | nil => intro openL m hm; exact Or.inl hm
  | cons nb rest ih =>
    intro openL m hm
    rw [addNeighbors] at hm
    split at hm
    · rcases ih openL m hm with h | ⟨c, hc, hce⟩
      · exact Or.inl h
      · exact Or.inr ⟨c, List.mem_cons_of_mem _ hc, hce⟩
    · split at hm
      · rcases ih openL m hm with h | ⟨c, hc, hce⟩
        · exact Or.inl h
        · exact Or.inr ⟨c, List.mem_cons_of_mem _ hc, hce⟩
      · rcases ih _ m hm with h | ⟨c, hc, hce⟩
        · rcases (mem_wsAdd _ _ _).mp h with h | rfl
          · exact Or.inl h
          · exact Or.inr ⟨nb, List.mem_cons_self _ _, rfl⟩
        · exact Or.inr ⟨c, List.mem_cons_of_mem _ hc, hce⟩

theorem sameCoord_trans {a b c : Node} (h1 : sameCoord a b = true)
    (h2 : sameCoord b c = true) : sameCoord a c = true := by
  rw [sameCoord_iff] at h1 h2 ⊢
  exact ⟨h1.1.trans h2.1, h1.2.trans h2.2⟩

theorem addNeighbors_coord_covered (a : PathFinder) :
    ∀ (nbs openL : List Node) (c : Node), c ∈ nbs →
      wsContains a.closedList c = false →
      ∃ m ∈ addNeighbors a nbs openL, sameCoord m c = true := by
  intro nbs
  induction nbs with
  | nil => intro openL c hc; simp at hc
  | cons nb rest ih =>
    intro openL c hc hncl
    rcases List.mem_cons.mp hc with rfl | hc
    · rw [addNeighbors]
      split
      · rename_i hcl
        rw [hncl] at hcl
        simp at hcl
      · split
        · rename_i hop
          rw [wsContains_iff] at hop
          rcases hop with ⟨m, hm, hmc⟩
          exact ⟨m, addNeighbors_subset a rest openL m hm,
            sameCoord_trans hmc (calculateNode_sameCoord a c)⟩
        · exact ⟨calculateNode a c,
            addNeighbors_subset a rest _ _ ((mem_wsAdd _ _ _).mpr (Or.inr rfl)),
            calculateNode_sameCoord a c⟩
    · rw [addNeighbors]
      split
      · exact ih openL c hc hncl
      · split
        · exact ih openL c hc hncl
        · exact ih _ c hc hncl

theorem searchLoop_zero (ctx : Option IContext) (ms : Int) (a : PathFinder) :
    searchLoop ctx ms 0 a = (.fuelOut, a) := rfl

theorem searchLoop_empty {a : PathFinder} (ctx : Option IContext) (ms : Int) (fuel : Nat)
    (h : wsIsEmpty a.openList = true) :
    searchLoop ctx ms (fuel + 1) a = (.noPath, a) := by
  rw [searchLoop, if_pos h]

theorem searchLoop_step {a : PathFinder} {cur : Node} (ctx : Option IContext) (ms : Int)
    (fuel : Nat) (h1 : wsIsEmpty a.openList = false)
    (h2 : GetMinFNode a.openList = some cur) :
    searchLoop ctx ms (fuel + 1) a =
      if IsEndNode ctx cur a.endNode then (.ok (getNodePath cur), midState a cur)
      else if ms > 0 ∧ (midState a cur).steps ≥ ms then
        (.ok (getNodePath cur), midState a cur)
      else searchLoop ctx ms fuel (postState ctx a cur) := by
  rw [searchLoop, if_neg (by simp [h1]), h2]

/-! ### Claims C1, C2, C3 (counterexample), C6, C7, C8, C9 -/

/-- C1: the claim states that a scored neighbor's `g` equals its
ancestor's `g` plus 1 (plus matching weightings), i.e. the accumulated
path cost.  The code instead increments the freshly generated neighbor's
own `g`, which `GetNeighborNodes` always leaves at the zero value 0, so
every scored node has `g = 1` (plus weightings) regardless of its depth:
expanding the depth-1 node `ancNode` (`g = 1`) yields a neighbor scored
`g = 1`, not `2`. -/
theorem C1_g_not_accumulated :
    Node.mk 0 0 0 0 2 0 (some ancNode) ∈ GetNeighborNodes pfC1 none ancNode ∧
    ancNode.g = 1 ∧
    (calculateNode pfC1 (Node.mk 0 0 0 0 2 0 (some ancNode))).g = 1 ∧
    (calculateNode pfC1 (Node.mk 0 0 0 0 2 0 (some ancNode))).g ≠ ancNode.g + 1 := by
  refine ⟨?_, rfl, rfl, by decide⟩
  decide

/-- C2: the claim states that two identical consecutive `FindPath` calls
return identical outputs, the permanently invalid cells still being in the
closed set for the second call.  The deferred cleanup of `doFindPath`
clears the closed list including the construction-time invalid-cell seed,
so on `cfgInv` (invalid cell (1,0), start (0,0), end (2,0)) the first call
routes around the obstacle while the identical second call goes straight
through (1,0) and returns a different sequence. -/
theorem C2_second_query_loses_invalid_cells :
    New cfgInv = some pfInv ∧
    (FindPath pfInv none (nodeAt 0 0) (nodeAt 2 0)).2.closedList = [] ∧
    wsContains (FindPath pfInv none (nodeAt 0 0) (nodeAt 2 0)).2.closedList
      (nodeAt 1 0) = false ∧
    resultCoords (FindPath pfInv none (nodeAt 0 0) (nodeAt 2 0)).1 =
      some [(2, 0), (2, 1), (1, 1), (0, 1)] ∧
    resultCoords
      (FindPath (FindPath pfInv none (nodeAt 0 0) (nodeAt 2 0)).2 none
        (nodeAt 0 0) (nodeAt 2 0)).1 = some [(2, 0), (1, 0)] ∧
    (FindPath pfInv none (nodeAt 0 0) (nodeAt 2 0)).1 ≠
      (FindPath (FindPath pfInv none (nodeAt 0 0) (nodeAt 2 0)).2 none
        (nodeAt 0 0) (nodeAt 2 0)).1 := by
  refine ⟨rfl, rfl, by decide, by decide, by decide, by decide⟩

/-- C3 (counterexample): with start = end = (0,0) on the obstacle-free
3x3 grid, `FindPath` returns the one-element sequence `[start]`, whose
length 1 differs from the Manhattan distance 0, refuting the claim for
the start = end pair. -/
theorem C3_counterexample_start_eq_end :
    (FindPath pf3 none (nodeAt 0 0) (nodeAt 0 0)).1 = .ok [nodeAt 0 0] ∧
    (1 : Nat) = [nodeAt 0 0].length ∧
    manhattan (nodeAt 0 0) (nodeAt 0 0) ≠ [nodeAt 0 0].length := by
  refine ⟨by decide, rfl, by decide⟩

/-- C6 (counterexample): path reconstruction applied to a terminal node
that itself has no ancestor returns that node as the whole sequence, so
the unique ancestor-less node of the chain does appear in the output,
refuting "the start node never appears" for this terminal. -/
theorem C6_counterexample_parentless_terminal :
    (Node.mk 0 0 0 1 1 0 none).parent = none ∧
    getNodePath (Node.mk 0 0 0 1 1 0 none) = [Node.mk 0 0 0 1 1 0 none] ∧
    Node.mk 0 0 0 1 1 0 none ∈ getNodePath (Node.mk 0 0 0 1 1 0 none) := by
  refine ⟨rfl, rfl, ?_⟩
  simp [getNodePath, getNodePathRest]

/-- C6 (amended): path reconstruction returns the ancestor chain walked
backward from the terminal node: the terminal is at index 0, each
following element is the predecessor of the one before it, and no element
after the terminal lacks an ancestor — so the ancestor-less start node
never appears except as the terminal itself. -/
theorem C6_getNodePath_chain (n : Node) :
    (getNodePath n).head? = some n ∧
    List.Chain' (fun a b => a.parent = some b) (getNodePath n) ∧
    (∀ m ∈ (getNodePath n).tail, m.parent ≠ none) := by
  refine ⟨getNodePath_head n, getNodePath_chain n, ?_⟩
  simpa [getNodePath] using getNodePathRest_parent_ne n

/-- C7: `isAccessible` returns true exactly when the node is inside
`[0,width-1]x[0,height-1]`, a present context does not report the cell
blocked (an absent context never blocks), and the cell's coordinates are
not in the closed set. -/
theorem C7_isAccessible_characterization (a : PathFinder) (ctx : Option IContext)
    (n : Node) :
    isAccessible a ctx n = true ↔
      ((0 ≤ n.x ∧ n.x ≤ a.config.GridWidth - 1 ∧ 0 ≤ n.y ∧
        n.y ≤ a.config.GridHeight - 1) ∧
       (∀ c, ctx = some c → c.IsInBlock n.x n.y = false) ∧
       wsContains a.closedList n = false) := by
  rw [isAccessible.eq_def]
  split
  · rename_i hb
    simp only [Bool.false_eq_true, false_iff]
    rintro ⟨⟨hx0, hx1, hy0, hy1⟩, _, _⟩
    omega
  · rename_i hb
    push_neg at hb
    split
    · rename_i hblk
      rcases ctx with _ | c
      · simp at hblk
      · simp only [Bool.false_eq_true, false_iff]
        rintro ⟨_, hc, _⟩
        have hblk2 : c.IsInBlock n.x n.y = true := hblk
        rw [hc c rfl] at hblk2
        simp at hblk2
    · rename_i hblk
      split
      · rename_i hcl
        simp only [Bool.false_eq_true, false_iff]
        rintro ⟨_, _, hcc⟩
        rw [hcc] at hcl
        simp at hcl
      · rename_i hcl
        simp only [true_iff]
        refine ⟨by omega, ?_, by simpa using hcl⟩
        rintro c rfl
        have hblk2 : ¬c.IsInBlock n.x n.y = true := hblk
        simpa using hblk2

/-- C8: the error branch of minimum extraction is unreachable:
`GetMinFNode` succeeds on every non-empty set, the search loop (which
checks emptiness before extracting) can never produce the wrapped
extraction error, and neither can `doFindPath`. -/
theorem C8_min_extraction_error_unreachable :
    (∀ l : List Node, wsIsEmpty l = false → ∃ n, GetMinFNode l = some n) ∧
    (∀ (ctx : Option IContext) (ms : Int) (fuel : Nat) (a : PathFinder),
      (searchLoop ctx ms fuel a).1 ≠ FindResult.minFError) ∧
    (∀ (a : PathFinder) (ctx : Option IContext) (s e : Node) (ms : Int),
      (doFindPath a ctx s e ms).1 ≠ FindResult.minFError) := by
  have hloop : ∀ (ctx : Option IContext) (ms : Int) (fuel : Nat) (a : PathFinder),
      (searchLoop ctx ms fuel a).1 ≠ FindResult.minFError := by
    intro ctx ms fuel
    induction fuel with
    | zero =>
      intro a
      rw [searchLoop_zero]
      simp
    | succ n ih =>
      intro a
      cases hE : wsIsEmpty a.openList
      · obtain ⟨cur, hcur⟩ := GetMinFNode_of_ne_nil ((wsIsEmpty_false _).mp hE)
        rw [searchLoop_step ctx ms n hE hcur]
        split
        · simp
        · split
          · simp
          · exact ih _
      · rw [searchLoop_empty ctx ms n hE]
        simp
  refine ⟨fun l hl => GetMinFNode_of_ne_nil ((wsIsEmpty_false l).mp hl), hloop, ?_⟩
  intro a ctx s e ms
  unfold doFindPath
  exact hloop ctx ms _ _

/-- The search loop never consults the step budget when it is not
positive: any two non-positive budgets produce the same behavior. -/
theorem searchLoop_nonpos_eq (ctx : Option IContext) {k k2 : Int} (hk : k ≤ 0)
    (hk2 : k2 ≤ 0) :
    ∀ (fuel : Nat) (a : PathFinder), searchLoop ctx k fuel a = searchLoop ctx k2 fuel a := by
  intro fuel
  induction fuel with
  | zero => intro a; rfl
  | succ n ih =>
    intro a
    cases hE : wsIsEmpty a.openList
    · obtain ⟨cur, hcur⟩ := GetMinFNode_of_ne_nil ((wsIsEmpty_false _).mp hE)
      rw [searchLoop_step ctx k n hE hcur, searchLoop_step ctx k2 n hE hcur]
      split
      · rfl
      · rw [if_neg (by rintro ⟨h1, _⟩; omega), if_neg (by rintro ⟨h1, _⟩; omega)]
        exact ih _
    · rw [searchLoop_empty ctx k n hE, searchLoop_empty ctx k2 n hE]

/-- C9: for every non-positive step budget (not only the sentinel -1),
`FindPathEx` behaves exactly like `FindPath`: the budget is disabled and
the search runs until the goal is found or the open set is exhausted. -/
theorem C9_nonpos_budget_is_no_limit (a : PathFinder) (ctx : Option IContext)
    (s e : Node) (k : Int) (hk : k ≤ 0) :
    FindPathEx a ctx s e k = FindPath a ctx s e := by
  have h := searchLoop_nonpos_eq ctx hk (show StepsNoLimit ≤ 0 by decide)
  unfold FindPathEx FindPath doFindPath
  simp only [h]

/-- Witness for C9 at a concrete input: budget 0 on the 3x3 engine. -/
theorem C9_witness :
    FindPathEx pf3 none (nodeAt 0 0) (nodeAt 2 2) 0 =
      FindPath pf3 none (nodeAt 0 0) (nodeAt 2 2) :=
  C9_nonpos_budget_is_no_limit pf3 none (nodeAt 0 0) (nodeAt 2 2) 0 (by decide)

/-! ### State-step lemmas and claim C5 -/

theorem IsEndNode_none (c e : Node) :
    IsEndNode none c e = (c.x == e.x && c.y == e.y) := rfl

theorem IsEndNode_none_iff {c e : Node} :
    IsEndNode none c e = true ↔ c.x = e.x ∧ c.y = e.y := by
  rw [IsEndNode_none]
  simp

theorem wsContains_wsAdd_of_contains {l : List Node} {n : Node} (x : Node)
    (h : wsContains l n = true) : wsContains (wsAdd l x) n = true := by
  rw [wsContains_iff] at h ⊢
  rcases h with ⟨m, hm, hmc⟩
  exact ⟨m, (mem_wsAdd _ _ _).mpr (Or.inl hm), hmc⟩

theorem isAccessible_false_of_closed {a : PathFinder} {ctx : Option IContext} {n : Node}
    (h : wsContains a.closedList n = true) : isAccessible a ctx n = false := by
  rw [isAccessible.eq_def]
  split
  · rfl
  · split
    · rfl
    · simp [h]

theorem midState_openList (a : PathFinder) (c : Node) :
    (midState a c).openList = wsRemove a.openList c := rfl

theorem midState_closedList (a : PathFinder) (c : Node) :
    (midState a c).closedList = wsAdd a.closedList c := rfl

theorem midState_endNode (a : PathFinder) (c : Node) :
    (midState a c).endNode = a.endNode := rfl

theorem midState_steps (a : PathFinder) (c : Node) :
    (midState a c).steps = a.steps + 1 := rfl

theorem midState_config (a : PathFinder) (c : Node) :
    (midState a c).config = a.config := rfl

theorem postState_openList (ctx : Option IContext) (a : PathFinder) (c : Node) :
    (postState ctx a c).openList =
      addNeighbors (midState a c) (GetNeighborNodes (midState a c) ctx c)
        (wsRemove a.openList c) := rfl

theorem postState_closedList (ctx : Option IContext) (a : PathFinder) (c : Node) :
    (postState ctx a c).closedList = wsAdd a.closedList c := rfl

theorem postState_endNode (ctx : Option IContext) (a : PathFinder) (c : Node) :
    (postState ctx a c).endNode = a.endNode := rfl

theorem postState_steps (ctx : Option IContext) (a : PathFinder) (c : Node) :
    (postState ctx a c).steps = a.steps + 1 := rfl

theorem postState_config (ctx : Option IContext) (a : PathFinder) (c : Node) :
    (postState ctx a c).config = a.config := rfl

theorem initState_fields (a : PathFinder) (s e : Node) :
    (initState a s e).openList = wsAdd a.openList s ∧
    (initState a s e).closedList = a.closedList ∧
    (initState a s e).endNode = e ∧
    (initState a s e).steps = 0 ∧
    (initState a s e).config = a.config :=
  ⟨rfl, rfl, rfl, rfl, rfl⟩

theorem New_elim {cfg : Config} {a : PathFinder} (h : New cfg = some a) :
    a.config = cfg ∧ a.openList = [] ∧ a.closedList = cfg.InvalidNodes ∧
    2 ≤ cfg.GridWidth ∧ 2 ≤ cfg.GridHeight := by
  rw [New] at h
  split at h
  · simp at h
  · rename_i hcond
    push_neg at hcond
    simp only [Option.some_inj] at h
    subst h
    refine ⟨rfl, rfl, ?_, by omega, by omega⟩
    simp [init, wsAddMany]

theorem stepAdvance_empty {t : PathFinder} (ctx : Option IContext) (ms : Int)
    (h : wsIsEmpty t.openList = true) : stepAdvance ctx ms t = none := by
  rw [stepAdvance, if_pos h]

theorem stepAdvance_eq {t : PathFinder} {cur : Node} (ctx : Option IContext) (ms : Int)
    (h1 : wsIsEmpty t.openList = false) (h2 : GetMinFNode t.openList = some cur) :
    stepAdvance ctx ms t =
      if IsEndNode ctx cur t.endNode then none
      else if ms > 0 ∧ (midState t cur).steps ≥ ms then none
      else some (postState ctx t cur) := by
  rw [stepAdvance, if_neg (by simp [h1]), h2]

theorem advance_zero (ctx : Option IContext) (ms : Int) (t : PathFinder) :
    advance ctx ms 0 t = some t := rfl

theorem advance_succ (ctx : Option IContext) (ms : Int) (j : Nat) (t : PathFinder) :
    advance ctx ms (j + 1) t =
      match stepAdvance ctx ms t with
      | none => none
      | some t2 => advance ctx ms j t2 := rfl

theorem searchLoop_noPath_iff (ctx : Option IContext) (ms : Int) :
    ∀ (fuel : Nat) (t : PathFinder),
      (searchLoop ctx ms fuel t).1 = FindResult.noPath ↔
        ∃ j < fuel, ∃ t2, advance ctx ms j t = some t2 ∧ t2.openList = [] := by
  intro fuel
  induction fuel with
  | zero =>
    intro t
    rw [searchLoop_zero]
    simp
  | succ n ih =>
    intro t
    cases hE : wsIsEmpty t.openList
    · obtain ⟨cur, hcur⟩ := GetMinFNode_of_ne_nil ((wsIsEmpty_false _).mp hE)
      have hne : t.openList ≠ [] := (wsIsEmpty_false _).mp hE
      rw [searchLoop_step ctx ms n hE hcur]
      by_cases hgoal : IsEndNode ctx cur t.endNode = true
      · rw [if_pos hgoal]
        refine iff_of_false (by simp) ?_
        rintro ⟨j, hj, t2, hadv, hopen⟩
        cases j with
        | zero =>
          rw [advance_zero] at hadv
          simp at hadv
          subst hadv
          exact hne hopen
        | succ j2 =>
          rw [advance_succ, stepAdvance_eq ctx ms hE hcur, if_pos hgoal] at hadv
          simp at hadv
      · rw [if_neg (by simp [hgoal])]
        by_cases hcut : ms > 0 ∧ (midState t cur).steps ≥ ms
        · rw [if_pos hcut]
          refine iff_of_false (by simp) ?_
          rintro ⟨j, hj, t2, hadv, hopen⟩
          cases j with
          | zero =>
            rw [advance_zero] at hadv
            simp at hadv
            subst hadv
            exact hne hopen
          | succ j2 =>
            rw [advance_succ, stepAdvance_eq ctx ms hE hcur,
              if_neg (by simp [hgoal]), if_pos hcut] at hadv
            simp at hadv
        · rw [if_neg hcut, ih]
          constructor
          · rintro ⟨j, hj, t2, hadv, hopen⟩
            refine ⟨j + 1, by omega, t2, ?_, hopen⟩
            rw [advance_succ, stepAdvance_eq ctx ms hE hcur,
              if_neg (by simp [hgoal]), if_neg hcut]
            exact hadv
          · rintro ⟨j, hj, t2, hadv, hopen⟩
            cases j with
            | zero =>
              rw [advance_zero] at hadv
              simp at hadv
              subst hadv
              exact absurd hopen hne
            | succ j2 =>
              rw [advance_succ, stepAdvance_eq ctx ms hE hcur,
                if_neg (by simp [hgoal]), if_neg hcut] at hadv
              simp only [Option.some.injEq] at hadv
              exact ⟨j2, by omega, t2, hadv, hopen⟩
    · rw [searchLoop_empty ctx ms n hE]
      exact iff_of_true rfl ⟨0, Nat.succ_pos n, t, advance_zero ctx ms t,
        List.isEmpty_iff.mp hE⟩

/-- C5: a query whose start node has all four neighbors permanently
invalid (no context, start not the goal) exhausts the open set after the
first expansion and returns the no-path error; and in general the loop
returns the no-path error exactly when the open set becomes empty without
reaching a goal or a step cutoff (the `advance` characterization). -/
theorem C5_enclosed_start_no_path :
    (∀ (cfg : Config) (a : PathFinder) (s e : Node),
      New cfg = some a →
      wsContains cfg.InvalidNodes (Node.mk 0 0 0 s.x (s.y + 1) 0 (some s)) = true →
      wsContains cfg.InvalidNodes (Node.mk 0 0 0 s.x (s.y - 1) 0 (some s)) = true →
      wsContains cfg.InvalidNodes (Node.mk 0 0 0 (s.x - 1) s.y 0 (some s)) = true →
      wsContains cfg.InvalidNodes (Node.mk 0 0 0 (s.x + 1) s.y 0 (some s)) = true →
      ¬(s.x = e.x ∧ s.y = e.y) →
      (FindPath a none s e).1 = FindResult.noPath) ∧
    (∀ (ctx : Option IContext) (ms : Int) (fuel : Nat) (t : PathFinder),
      (searchLoop ctx ms fuel t).1 = FindResult.noPath ↔
        ∃ j < fuel, ∃ t2, advance ctx ms j t = some t2 ∧ t2.openList = []) := by
  refine ⟨?_, fun ctx ms => searchLoop_noPath_iff ctx ms⟩
  intro cfg a s e hNew hup hdown hleft hright hgoalne
  obtain ⟨hacfg, haopen, haclosed, hw, hh⟩ := New_elim hNew
  show (searchLoop none StepsNoLimit (loopFuel (initState a s e)) (initState a s e)).1 =
    FindResult.noPath
  have hopen0 : (initState a s e).openList = [s] := by
    rw [show (initState a s e).openList = wsAdd a.openList s from rfl, haopen]
    rfl
  have hcl0 : (initState a s e).closedList = cfg.InvalidNodes := by
    rw [show (initState a s e).closedList = a.closedList from rfl, haclosed]
  have hE : wsIsEmpty (initState a s e).openList = false := by
    rw [hopen0]
    rfl
  have hmin : GetMinFNode (initState a s e).openList = some s := by
    rw [hopen0]
    rfl
  have hcfg0 : (initState a s e).config = cfg := by
    rw [show (initState a s e).config = a.config from rfl, hacfg]
  have hfuel : loopFuel (initState a s e) =
      (cfg.GridWidth * cfg.GridHeight).toNat + 1 := by
    rw [loopFuel, hcfg0]
  rw [hfuel, searchLoop_step none StepsNoLimit _ hE hmin]
  have hgne : ¬(IsEndNode none s (initState a s e).endNode = true) :=
    fun hcontra => hgoalne (IsEndNode_none_iff.mp hcontra)
  have hcne : ¬(StepsNoLimit > 0 ∧ (midState (initState a s e) s).steps ≥ StepsNoLimit) :=
    fun hcontra => absurd hcontra.1 (by decide)
  rw [if_neg hgne, if_neg hcne]
  have hmidcl : (midState (initState a s e) s).closedList = wsAdd cfg.InvalidNodes s := by
    rw [midState_closedList, hcl0]
  have hnb : GetNeighborNodes (midState (initState a s e) s) none s = [] := by
    have h1 : isAccessible (midState (initState a s e) s) none
        (Node.mk 0 0 0 s.x (s.y + 1) 0 (some s)) = false :=
      isAccessible_false_of_closed
        (by rw [hmidcl]; exact wsContains_wsAdd_of_contains s hup)
    have h2 : isAccessible (midState (initState a s e) s) none
        (Node.mk 0 0 0 s.x (s.y - 1) 0 (some s)) = false :=
      isAccessible_false_of_closed
        (by rw [hmidcl]; exact wsContains_wsAdd_of_contains s hdown)
    have h3 : isAccessible (midState (initState a s e) s) none
        (Node.mk 0 0 0 (s.x - 1) s.y 0 (some s)) = false :=
      isAccessible_false_of_closed
        (by rw [hmidcl]; exact wsContains_wsAdd_of_contains s hleft)
    have h4 : isAccessible (midState (initState a s e) s) none
        (Node.mk 0 0 0 (s.x + 1) s.y 0 (some s)) = false :=
      isAccessible_false_of_closed
        (by rw [hmidcl]; exact wsContains_wsAdd_of_contains s hright)
    simp [GetNeighborNodes, h1, h2, h3, h4]
  have hpost : (postState none (initState a s e) s).openList = [] := by
    rw [postState_openList, hnb]
    rw [show wsRemove (initState a s e).openList s = ([] : List Node) from by
      rw [hopen0]; simp [wsRemove, sameCoord]]
    rfl
  obtain ⟨m, hm⟩ : ∃ m, (cfg.GridWidth * cfg.GridHeight).toNat = m + 1 := by
    have h4 : (2 : Int) * 2 ≤ cfg.GridWidth * cfg.GridHeight :=
      mul_le_mul hw hh (by norm_num) (by omega)
    exact ⟨(cfg.GridWidth * cfg.GridHeight).toNat - 1, by omega⟩
  rw [hm, searchLoop_empty none StepsNoLimit m (by rw [hpost]; rfl)]

/-- Witness for C5: the concrete enclosed-start scenario (4x4 grid,
start (1,1) surrounded by invalid cells, end (3,3)) returns the no-path
error; and the characterization instantiated on the same query. -/
theorem C5_witness :
    (FindPath
      ⟨⟨4, 4, [nodeAt 1 2, nodeAt 1 0, nodeAt 0 1, nodeAt 2 1], []⟩, [],
        [nodeAt 1 2, nodeAt 1 0, nodeAt 0 1, nodeAt 2 1], zeroNode, zeroNode, 0⟩
      none (nodeAt 1 1) (nodeAt 3 3)).1 = FindResult.noPath :=
  C5_enclosed_start_no_path.1 ⟨4, 4, [nodeAt 1 2, nodeAt 1 0, nodeAt 0 1, nodeAt 2 1], []⟩
    ⟨⟨4, 4, [nodeAt 1 2, nodeAt 1 0, nodeAt 0 1, nodeAt 2 1], []⟩, [],
      [nodeAt 1 2, nodeAt 1 0, nodeAt 0 1, nodeAt 2 1], zeroNode, zeroNode, 0⟩
    (nodeAt 1 1) (nodeAt 3 3) rfl (by decide) (by decide) (by decide)
    (by decide) (by decide)

/-! ### Claim C10 -/

theorem mem_getNodePath_parent_ne {c : Node} (hc : c.parent ≠ none) :
    ∀ m ∈ getNodePath c, m.parent ≠ none := by
  intro m hm
  rcases List.mem_cons.mp hm with rfl | hm
  · exact hc
  · exact getNodePathRest_parent_ne c m hm

theorem searchLoop_ok_terminal (ctx : Option IContext) (ms : Int) :
    ∀ (fuel : Nat) (t : PathFinder) (p : List Node),
      (∀ n ∈ t.openList, n.parent ≠ none) →
      (searchLoop ctx ms fuel t).1 = FindResult.ok p →
      ∃ c, c.parent ≠ none ∧ p = getNodePath c := by
  intro fuel
  induction fuel with
  | zero =>
    intro t p hinv hok
    rw [searchLoop_zero] at hok
    simp at hok
  | succ n ih =>
    intro t p hinv hok
    cases hE : wsIsEmpty t.openList
    · obtain ⟨cur, hcur⟩ := GetMinFNode_of_ne_nil ((wsIsEmpty_false _).mp hE)
      have hcurp : cur.parent ≠ none := hinv cur (GetMinFNode_mem hcur)
      rw [searchLoop_step ctx ms n hE hcur] at hok
      split at hok
      · simp at hok
        exact ⟨cur, hcurp, hok.symm⟩
      · split at hok
        · simp at hok
          exact ⟨cur, hcurp, hok.symm⟩
        · refine ih (postState ctx t cur) p ?_ hok
          intro m hm
          rw [postState_openList] at hm
          rcases mem_addNeighbors _ _ _ _ hm with hold | ⟨c, hc, rfl⟩
          · exact hinv m ((mem_wsRemove _ _ _).mp hold).1
          · rw [calculateNode_parent, GetNeighborNodes_parent hc]
            simp
    · rw [searchLoop_empty ctx ms n hE] at hok
      simp at hok

/-- C10: when the start node already satisfies the goal test, `FindPath`
succeeds with the one-element sequence `[start]`; and when it does not,
the start node (host-constructed, hence ancestor-less) never appears in a
successful output — so the immediate-goal query is the only case in which
the start node is emitted. -/
theorem C10_start_goal_returns_start (a : PathFinder) (ctx : Option IContext)
    (s e : Node) (hopen : a.openList = []) (hpar : s.parent = none) :
    (IsEndNode ctx s e = true → (FindPath a ctx s e).1 = FindResult.ok [s]) ∧
    (IsEndNode ctx s e = false →
      ∀ p, (FindPath a ctx s e).1 = FindResult.ok p → s ∉ p) := by
  have hopen0 : (initState a s e).openList = [s] := by
    rw [show (initState a s e).openList = wsAdd a.openList s from rfl, hopen]
    rfl
  have hE : wsIsEmpty (initState a s e).openList = false := by
    rw [hopen0]
    rfl
  have hmin : GetMinFNode (initState a s e).openList = some s := by
    rw [hopen0]
    rfl
  constructor
  · intro hgoal
    show (searchLoop ctx StepsNoLimit (loopFuel (initState a s e)) (initState a s e)).1 =
      FindResult.ok [s]
    rw [loopFuel, searchLoop_step ctx StepsNoLimit _ hE hmin]
    have hgoal2 : IsEndNode ctx s (initState a s e).endNode = true := hgoal
    rw [if_pos hgoal2]
    show FindResult.ok (getNodePath s) = FindResult.ok [s]
    rw [getNodePath_parentless hpar]
  · intro hgoalf p hok hmem
    have hok2 : (searchLoop ctx StepsNoLimit (loopFuel (initState a s e))
        (initState a s e)).1 = FindResult.ok p := hok
    rcases hfuel : loopFuel (initState a s e) with _ | m
    · rw [hfuel] at hok2
      rw [searchLoop_zero] at hok2
      simp at hok2
    · rw [hfuel, searchLoop_step ctx StepsNoLimit m hE hmin] at hok2
      have hgne : ¬(IsEndNode ctx s (initState a s e).endNode = true) := by
        intro hcontra
        have : IsEndNode ctx s e = true := hcontra
        rw [hgoalf] at this
        simp at this
      have hcne : ¬(StepsNoLimit > 0 ∧
          (midState (initState a s e) s).steps ≥ StepsNoLimit) :=
        fun hcontra => absurd hcontra.1 (by decide)
      rw [if_neg hgne, if_neg hcne] at hok2
      have hinv : ∀ n ∈ (postState ctx (initState a s e) s).openList, n.parent ≠ none := by
        intro n hn
        rw [postState_openList] at hn
        rcases mem_addNeighbors _ _ _ _ hn with hold | ⟨c, hc, rfl⟩
        · have := ((mem_wsRemove _ _ _).mp hold).1
          rw [hopen0] at this
          have h2 := ((mem_wsRemove _ _ _).mp hold).2
          rcases List.mem_singleton.mp this with rfl
          rw [sameCoord_self] at h2
          simp at h2
        · rw [calculateNode_parent, GetNeighborNodes_parent hc]
          simp
      obtain ⟨c, hcp, rfl⟩ := searchLoop_ok_terminal ctx StepsNoLimit m _ p hinv hok2
      exact absurd hpar (mem_getNodePath_parent_ne hcp s hmem)

/-! ### Claim C4 -/

theorem stepNext_some_elim {ctx : Option IContext} {t : PathFinder}
    {pr : Node × PathFinder} (h : stepNext ctx t = some pr) :
    wsIsEmpty t.openList = false ∧ GetMinFNode t.openList = some pr.1 ∧
      pr.2 = postState ctx t pr.1 := by
  rw [stepNext] at h
  split at h
  · simp at h
  · rename_i hE
    simp at hE
    split at h
    · simp at h
    · rename_i cur hcur
      simp only [Option.some_inj] at h
      subst h
      exact ⟨by simpa using hE, hcur, rfl⟩

theorem extractedAt_zero (ctx : Option IContext) (t : PathFinder) :
    extractedAt ctx t 0 = (stepNext ctx t).map Prod.fst := rfl

theorem traceStates_shift (ctx : Option IContext) {t : PathFinder}
    {pr : Node × PathFinder} (h : stepNext ctx t = some pr) :
    ∀ i, traceStates ctx t (i + 1) = traceStates ctx pr.2 i := by
  intro i
  induction i with
  | zero => simp [traceStates, h]
  | succ n ihn =>
    show (match traceStates ctx t (n + 1) with
      | none => none
      | some t2 => (stepNext ctx t2).map Prod.snd) = traceStates ctx pr.2 (n + 1)
    rw [ihn]
    rfl

theorem extractedAt_shift (ctx : Option IContext) {t : PathFinder}
    {pr : Node × PathFinder} (h : stepNext ctx t = some pr) (i : Nat) :
    extractedAt ctx t (i + 1) = extractedAt ctx pr.2 i := by
  simp only [extractedAt]
  rw [traceStates_shift ctx h i]

theorem IsEndNode_false_coords {ctx : Option IContext} {c e : Node}
    (h : IsEndNode ctx c e = false) : ¬(c.x = e.x ∧ c.y = e.y) := by
  rintro ⟨hx, hy⟩
  rw [IsEndNode.eq_def] at h
  simp [hx, hy] at h

theorem searchLoop_budget (ctx : Option IContext) (e : Node) (k : Nat) (hkpos : 0 < k) :
    ∀ (r : Nat) (t : PathFinder) (fuel : Nat),
      r + 1 ≤ fuel →
      t.endNode = e →
      t.steps = (k : Int) - 1 - (r : Int) →
      (∀ i ≤ r, ∃ c, extractedAt ctx t i = some c ∧ IsEndNode ctx c e = false) →
      ∃ c, extractedAt ctx t r = some c ∧
        (searchLoop ctx (k : Int) fuel t).1 = FindResult.ok (getNodePath c) := by
  intro r
  induction r with
  | zero =>
    intro t fuel hf hend hsteps H1
    obtain ⟨c, hc, hcg⟩ := H1 0 (le_refl 0)
    cases hsn : stepNext ctx t with
    | none =>
      rw [extractedAt_zero, hsn] at hc
      simp at hc
    | some pr =>
      have hpr1 : pr.1 = c := by
        rw [extractedAt_zero, hsn] at hc
        simpa using hc
      obtain ⟨hE, hmin, hpost⟩ := stepNext_some_elim hsn
      cases fuel with
      | zero => omega
      | succ f =>
        rw [hpr1] at hmin
        rw [searchLoop_step ctx (k : Int) f hE hmin]
        have hgne : ¬(IsEndNode ctx c t.endNode = true) := by
          rw [hend, hcg]
          simp
        rw [if_neg hgne]
        have hcut : (k : Int) > 0 ∧ (midState t c).steps ≥ (k : Int) := by
          rw [midState_steps, hsteps]
          constructor
          · exact_mod_cast hkpos
          · push_cast
            omega
        rw [if_pos hcut]
        exact ⟨c, hc, rfl⟩
  | succ r ih =>
    intro t fuel hf hend hsteps H1
    obtain ⟨c0, hc0, hc0g⟩ := H1 0 (Nat.zero_le _)
    cases hsn : stepNext ctx t with
    | none =>
      rw [extractedAt_zero, hsn] at hc0
      simp at hc0
    | some pr =>
      have hpr1 : pr.1 = c0 := by
        rw [extractedAt_zero, hsn] at hc0
        simpa using hc0
      obtain ⟨hE, hmin, hpost⟩ := stepNext_some_elim hsn
      cases fuel with
      | zero => omega
      | succ f =>
        rw [hpr1] at hmin
        rw [searchLoop_step ctx (k : Int) f hE hmin]
        have hgne : ¬(IsEndNode ctx c0 t.endNode = true) := by
          rw [hend, hc0g]
          simp
        rw [if_neg hgne]
        have hcne : ¬((k : Int) > 0 ∧ (midState t c0).steps ≥ (k : Int)) := by
          rintro ⟨_, hge⟩
          rw [midState_steps, hsteps] at hge
          push_cast at hge
          omega
        rw [if_neg hcne]
        have hpost2 : pr.2 = postState ctx t c0 := by rw [hpost, hpr1]
        have hshift : ∀ i, extractedAt ctx t (i + 1) = extractedAt ctx pr.2 i :=
          extractedAt_shift ctx hsn
        obtain ⟨c, hcr, hres⟩ := ih (postState ctx t c0) f (by omega)
          (by rw [postState_endNode]; exact hend)
          (by rw [postState_steps, hsteps]; push_cast; ring)
          (by
            intro i hi
            obtain ⟨c2, hc2, hc2g⟩ := H1 (i + 1) (by omega)
            rw [hshift i, hpost2] at hc2
            exact ⟨c2, hc2, hc2g⟩)
        refine ⟨c, ?_, hres⟩
        rw [hshift r, hpost2]
        exact hcr

/-- C4: for a positive step budget `k` smaller than the number of
expansion steps the query needs (the goal test first succeeds on the
extraction of 0-based step `m`, and `k ≤ m`), `FindPathEx` returns a
successful, non-empty sequence whose terminal (first) node is the node
extracted on the k-th expansion step, and that node is not the end node.
The bound `k ≤ loopFuel` discharges the fuelled embedding of the Go loop
and holds for every terminating query. -/
theorem C4_budget_returns_partial_path (a : PathFinder) (ctx : Option IContext)
    (s e : Node) (k m : Nat) (cm : Node) (hkpos : 0 < k) (hkm : k ≤ m)
    (hfuel : k ≤ loopFuel (initState a s e))
    (htrace : ∀ j, j < m → ∃ c, extractedAt ctx (initState a s e) j = some c ∧
      IsEndNode ctx c e = false)
    (_hgoal : extractedAt ctx (initState a s e) m = some cm ∧
      IsEndNode ctx cm e = true) :
    ∃ c, extractedAt ctx (initState a s e) (k - 1) = some c ∧
      (FindPathEx a ctx s e (k : Int)).1 = FindResult.ok (getNodePath c) ∧
      getNodePath c ≠ [] ∧
      (getNodePath c).head? = some c ∧
      IsEndNode ctx c e = false ∧
      ¬(c.x = e.x ∧ c.y = e.y) := by
  obtain ⟨c, hc, hres⟩ := searchLoop_budget ctx e k hkpos (k - 1) (initState a s e)
    (loopFuel (initState a s e)) (by omega) rfl
    (by rw [show (initState a s e).steps = 0 from rfl]; omega)
    (fun i hi => htrace i (by omega))
  obtain ⟨c2, hc2, hc2g⟩ := htrace (k - 1) (by omega)
  have hcc : c2 = c := by
    rw [hc2] at hc
    simpa using hc
  subst hcc
  exact ⟨c2, hc2, hres, getNodePath_ne_nil c2, getNodePath_head c2, hc2g,
    IsEndNode_false_coords hc2g⟩

/-- Witness for C4 at a concrete input: the 3x3 grid, start (0,0), end
(2,2): the unbounded query reaches the goal on step 4 (0-based), and
budget 2 returns the path ending at (0,1), the node extracted on step 1
(= the 2nd expansion step). -/
theorem C4_witness :
    ∃ c, extractedAt none (initState pf3 (nodeAt 0 0) (nodeAt 2 2)) (2 - 1) = some c ∧
      (FindPathEx pf3 none (nodeAt 0 0) (nodeAt 2 2) ((2 : Nat) : Int)).1 =
        FindResult.ok (getNodePath c) ∧
      getNodePath c ≠ [] ∧
      (getNodePath c).head? = some c ∧
      IsEndNode none c (nodeAt 2 2) = false ∧
      ¬(c.x = (nodeAt 2 2).x ∧ c.y = (nodeAt 2 2).y) :=
  C4_budget_returns_partial_path pf3 none (nodeAt 0 0) (nodeAt 2 2) 2 4
    (Node.mk 1 1 0 2 2 0 (some (Node.mk 2 1 1 1 2 0 (some (Node.mk 3 1 2 0 2 0
      (some (Node.mk 4 1 3 0 1 0 (some (nodeAt 0 0)))))))))
    (by decide) (by decide) (by decide)
    (by decide)
    (by constructor <;> decide)

/-- Witness for C10: on the 3x3 engine with start = end = (1,1), the query
returns exactly `[start]`; with end (2,2) instead, the start never appears
in a successful output. -/
theorem C10_witness :
    (IsEndNode none (nodeAt 1 1) (nodeAt 1 1) = true →
      (FindPath pf3 none (nodeAt 1 1) (nodeAt 1 1)).1 = FindResult.ok [nodeAt 1 1]) ∧
    (IsEndNode none (nodeAt 1 1) (nodeAt 1 1) = false →
      ∀ p, (FindPath pf3 none (nodeAt 1 1) (nodeAt 1 1)).1 = FindResult.ok p →
        nodeAt 1 1 ∉ p) :=
  C10_start_goal_returns_start pf3 none (nodeAt 1 1) (nodeAt 1 1) rfl rfl

/-! ### Claim C3: the obstacle-free shortest-path analysis -/

theorem H_eq_manhattan (a b : Node) : H a b = (manhattan a b : Int) := by
  rw [H, manhattan]
  push_cast
  ring

theorem manhattan_eq_zero_iff {n e : Node} :
    manhattan n e = 0 ↔ n.x = e.x ∧ n.y = e.y := by
  rw [manhattan]
  omega

theorem manhattan_coord_congr {m n : Node} (e : Node) (h : sameCoord m n = true) :
    manhattan m e = manhattan n e := by
  rw [sameCoord_iff] at h
  rw [manhattan, manhattan, h.1, h.2]

theorem manhattan_calculateNode_left (a : PathFinder) (n m : Node) :
    manhattan (calculateNode a n) m = manhattan n m := by
  rw [manhattan, manhattan, calculateNode_x, calculateNode_y]

theorem adjacent_calculateNode_left (a : PathFinder) (n m : Node) :
    adjacent (calculateNode a n) m ↔ adjacent n m := by
  rw [adjacent, adjacent, manhattan_calculateNode_left]

theorem manhattan_adjacent_ge {c cur e : Node} (h : adjacent c cur) :
    manhattan cur e ≤ manhattan c e + 1 := by
  rw [adjacent, manhattan] at h
  rw [manhattan, manhattan]
  omega

theorem goodChain_parent_none {s e n : Node} (h : n.parent = none) :
    goodChain s e n ↔ n = s := by
  rcases n with ⟨f, g, hh, x, y, w, _ | p⟩
  · rw [goodChain]
  · simp [Node.parent] at h

theorem goodChain_parent_some {s e n p : Node} (h : n.parent = some p) :
    goodChain s e n ↔
      adjacent n p ∧ manhattan p e = manhattan n e + 1 ∧ goodChain s e p := by
  rcases n with ⟨f, g, hh, x, y, w, _ | q⟩
  · simp [Node.parent] at h
  · rw [show p = q from by simpa [Node.parent] using h.symm]
    rw [goodChain]

theorem goodChain_length {s e : Node} : ∀ n : Node, goodChain s e n →
    n.parent ≠ none → (getNodePath n).length + manhattan n e = manhattan s e
  | .mk f g h x y w none => by
    intro _ hp
    simp [Node.parent] at hp
  | .mk f g h x y w (some p) => by
    intro hgc _
    rw [goodChain_parent_some (show (Node.mk f g h x y w (some p)).parent = some p
      from rfl)] at hgc
    obtain ⟨hadj, hman, hgcp⟩ := hgc
    rcases hpp : p.parent with _ | q
    · have hps : p = s := (goodChain_parent_none hpp).mp hgcp
      have hpath : getNodePath (Node.mk f g h x y w (some p)) =
          [Node.mk f g h x y w (some p)] := by
        rcases p with ⟨pf, pg, ph, px, py, pw, _ | pq⟩
        · rfl
        · simp [Node.parent] at hpp
      rw [hpath]
      simp only [List.length_singleton]
      rw [← hps]
      omega
    · have ih := goodChain_length p hgcp (by rw [hpp]; simp)
      have hpath : (getNodePath (Node.mk f g h x y w (some p))).length =
          1 + (getNodePath p).length := by
        rcases p with ⟨pf, pg, ph, px, py, pw, _ | pq⟩
        · simp [Node.parent] at hpp
        · rw [getNodePath, getNodePath, getNodePathRest]
          simp [List.length_cons]
          omega
      omega

theorem goodChain_path_adjacent {s e : Node} : ∀ n : Node, goodChain s e n →
    List.Chain' adjacent (getNodePath n)
  | .mk f g h x y w none => by
    intro _
    simp [getNodePath, getNodePathRest]
  | .mk f g h x y w (some p) => by
    intro hgc
    rw [goodChain_parent_some (show (Node.mk f g h x y w (some p)).parent = some p
      from rfl)] at hgc
    obtain ⟨hadj, hman, hgcp⟩ := hgc
    have ih := goodChain_path_adjacent p hgcp
    rcases p with ⟨pf, pg, ph, px, py, pw, _ | pq⟩
    · simp [getNodePath, getNodePathRest]
    · rw [getNodePath, getNodePathRest]
      rw [getNodePath] at ih
      exact List.chain'_cons.mpr ⟨hadj, ih⟩

theorem goodChain_path_lt {s e : Node} : ∀ n : Node, goodChain s e n →
    n.parent ≠ none → ∀ m ∈ getNodePath n, manhattan m e < manhattan s e
  | .mk f g h x y w none => by
    intro _ hp
    simp [Node.parent] at hp
  | .mk f g h x y w (some p) => by
    intro hgc _
    rw [goodChain_parent_some (show (Node.mk f g h x y w (some p)).parent = some p
      from rfl)] at hgc
    obtain ⟨hadj, hman, hgcp⟩ := hgc
    rcases hpp : p.parent with _ | q
    · have hps : p = s := (goodChain_parent_none hpp).mp hgcp
      have hpath : getNodePath (Node.mk f g h x y w (some p)) =
          [Node.mk f g h x y w (some p)] := by
        rcases p with ⟨pf, pg, ph, px, py, pw, _ | pq⟩
        · rfl
        · simp [Node.parent] at hpp
      rw [hpath]
      intro m hm
      rcases List.mem_singleton.mp hm with rfl
      rw [← hps]
      omega
    · have ih := goodChain_path_lt p hgcp (by rw [hpp]; simp)
      have hpath : getNodePath (Node.mk f g h x y w (some p)) =
          Node.mk f g h x y w (some p) :: getNodePath p := by
        rcases p with ⟨pf, pg, ph, px, py, pw, _ | pq⟩
        · simp [Node.parent] at hpp
        · rw [getNodePath, getNodePath, getNodePathRest]
      rw [hpath]
      intro m hm
      rcases List.mem_cons.mp hm with rfl | hm
      · have := ih p (by rw [getNodePath]; exact List.mem_cons_self _ _)
        omega
      · exact ih m hm

theorem isAccessible_none_intro {a : PathFinder} {n : Node}
    (hb : 0 ≤ n.x ∧ n.x ≤ a.config.GridWidth - 1 ∧ 0 ≤ n.y ∧
      n.y ≤ a.config.GridHeight - 1)
    (hcl : wsContains a.closedList n = false) : isAccessible a none n = true := by
  rw [isAccessible.eq_def]
  rw [if_neg (by omega)]
  show (if false = true then false else if wsContains a.closedList n = true
    then false else true) = true
  rw [if_neg (by simp), if_neg (by simp [hcl])]

theorem toward_goal_added (t : PathFinder) (cur cnd e : Node) (rp : Nat)
    (hor : cnd = Node.mk 0 0 0 cur.x (cur.y + 1) 0 (some cur) ∨
      cnd = Node.mk 0 0 0 cur.x (cur.y - 1) 0 (some cur) ∨
      cnd = Node.mk 0 0 0 (cur.x - 1) cur.y 0 (some cur) ∨
      cnd = Node.mk 0 0 0 (cur.x + 1) cur.y 0 (some cur))
    (hbnd : 0 ≤ cnd.x ∧ cnd.x ≤ t.config.GridWidth - 1 ∧ 0 ≤ cnd.y ∧
      cnd.y ≤ t.config.GridHeight - 1)
    (hmancnd : manhattan cnd e = rp)
    (hclosed1 : ∀ n ∈ (midState t cur).closedList, rp + 1 ≤ manhattan n e) :
    ∃ m ∈ (postState none t cur).openList, manhattan m e = rp := by
  have hncl : wsContains (midState t cur).closedList cnd = false := by
    rw [wsContains_false]
    intro m hm
    cases hsc : sameCoord m cnd
    · rfl
    · exfalso
      have h1 := manhattan_coord_congr e hsc
      have h2 := hclosed1 m hm
      omega
  have hacc : isAccessible (midState t cur) none cnd = true :=
    isAccessible_none_intro (by rw [midState_config]; exact hbnd) hncl
  have hcmem : cnd ∈ GetNeighborNodes (midState t cur) none cur :=
    mem_GetNeighborNodes.mpr ⟨hor, hacc⟩
  obtain ⟨m, hm, hsc⟩ := addNeighbors_coord_covered (midState t cur)
    (GetNeighborNodes (midState t cur) none cur) (wsRemove t.openList cur) cnd
    hcmem hncl
  refine ⟨m, ?_, ?_⟩
  · rw [postState_openList]
    exact hm
  · rw [manhattan_coord_congr e hsc, hmancnd]

theorem expand_preserves (s e : Node) (rp : Nat) (t : PathFinder) (cur : Node)
    (hw : t.config.WeightedNodes = [])
    (hend : t.endNode = e)
    (heb : 0 ≤ e.x ∧ e.x ≤ t.config.GridWidth - 1 ∧ 0 ≤ e.y ∧
      e.y ≤ t.config.GridHeight - 1)
    (hcb : 0 ≤ cur.x ∧ cur.x ≤ t.config.GridWidth - 1 ∧ 0 ≤ cur.y ∧
      cur.y ≤ t.config.GridHeight - 1)
    (hgc : goodChain s e cur)
    (hman : manhattan cur e = rp + 1)
    (hopen : ∀ n ∈ wsRemove t.openList cur,
      (0 ≤ n.x ∧ n.x ≤ t.config.GridWidth - 1 ∧ 0 ≤ n.y ∧
        n.y ≤ t.config.GridHeight - 1) ∧
      n.g = 1 ∧ n.h = (manhattan n e : Int) ∧ n.f = 1 + (manhattan n e : Int) ∧
      rp + 1 ≤ manhattan n e)
    (hclosed : ∀ n ∈ t.closedList, rp + 2 ≤ manhattan n e) :
    descInv s e rp (postState none t cur) := by
  have hclosed1 : ∀ n ∈ (midState t cur).closedList, rp + 1 ≤ manhattan n e := by
    intro n hn
    rw [midState_closedList] at hn
    rcases (mem_wsAdd _ _ _).mp hn with hold | rfl
    · have := hclosed n hold
      omega
    · omega
  refine ⟨?_, ?_, ?_, ?_, ?_, ?_⟩
  · rw [postState_config]
    exact hw
  · rw [postState_endNode]
    exact hend
  · rw [postState_config]
    exact heb
  · intro n hn
    rw [postState_openList] at hn
    rw [postState_config]
    rcases mem_addNeighbors _ _ _ _ hn with hold | ⟨c, hc, rfl⟩
    · obtain ⟨hb4, hg, hh, hf, hge⟩ := hopen n hold
      exact ⟨hb4, hg, hh, hf, by omega, fun hmn => absurd hmn (by omega)⟩
    · have ht1cfg : (midState t cur).config = t.config := midState_config t cur
      have ht1end : (midState t cur).endNode = e := by
        rw [midState_endNode]
        exact hend
      have hpar := GetNeighborNodes_parent hc
      have hg0 := GetNeighborNodes_g hc
      have hadj := GetNeighborNodes_adjacent hc
      have hbc : 0 ≤ c.x ∧ c.x ≤ t.config.GridWidth - 1 ∧ 0 ≤ c.y ∧
          c.y ≤ t.config.GridHeight - 1 := by
        have := isAccessible_inBounds (mem_GetNeighborNodes.mp hc).2
        rw [ht1cfg] at this
        exact this
      have hgc1 : (calculateNode (midState t cur) c).g = 1 := by
        rw [calculateNode_g_of_no_weights (by rw [ht1cfg]; exact hw), hg0]
        omega
      have hhc : (calculateNode (midState t cur) c).h = (manhattan c e : Int) := by
        rw [calculateNode_h, ht1end, H_eq_manhattan]
      have hfc : (calculateNode (midState t cur) c).f = 1 + (manhattan c e : Int) := by
        rw [calculateNode_f, hgc1, hhc]
      have hgec : rp ≤ manhattan c e := by
        have := manhattan_adjacent_ge (e := e) hadj
        omega
      rw [manhattan_calculateNode_left, calculateNode_x, calculateNode_y]
      refine ⟨hbc, hgc1, hhc, hfc, hgec, ?_⟩
      intro hmn
      rw [goodChain_parent_some (by rw [calculateNode_parent]; exact hpar)]
      refine ⟨(adjacent_calculateNode_left _ c cur).mpr hadj, ?_, hgc⟩
      rw [manhattan_calculateNode_left]
      omega
  · have hne0 : ¬(cur.x = e.x ∧ cur.y = e.y) := by
      intro hcontra
      rw [← manhattan_eq_zero_iff] at hcontra
      omega
    rw [manhattan] at hman
    rcases lt_trichotomy cur.x e.x with hx | hx | hx
    · refine toward_goal_added t cur (Node.mk 0 0 0 (cur.x + 1) cur.y 0 (some cur))
        e rp (Or.inr (Or.inr (Or.inr rfl))) ?_ ?_ hclosed1
      · show 0 ≤ cur.x + 1 ∧ cur.x + 1 ≤ t.config.GridWidth - 1 ∧ 0 ≤ cur.y ∧
          cur.y ≤ t.config.GridHeight - 1
        omega
      · show (cur.x + 1 - e.x).natAbs + (cur.y - e.y).natAbs = rp
        omega
    · rcases lt_trichotomy cur.y e.y with hy | hy | hy
      · refine toward_goal_added t cur (Node.mk 0 0 0 cur.x (cur.y + 1) 0 (some cur))
          e rp (Or.inl rfl) ?_ ?_ hclosed1
        · show 0 ≤ cur.x ∧ cur.x ≤ t.config.GridWidth - 1 ∧ 0 ≤ cur.y + 1 ∧
            cur.y + 1 ≤ t.config.GridHeight - 1
          omega
        · show (cur.x - e.x).natAbs + (cur.y + 1 - e.y).natAbs = rp
          omega
      · exact absurd ⟨hx, hy⟩ hne0
      · refine toward_goal_added t cur (Node.mk 0 0 0 cur.x (cur.y - 1) 0 (some cur))
          e rp (Or.inr (Or.inl rfl)) ?_ ?_ hclosed1
        · show 0 ≤ cur.x ∧ cur.x ≤ t.config.GridWidth - 1 ∧ 0 ≤ cur.y - 1 ∧
            cur.y - 1 ≤ t.config.GridHeight - 1
          omega
        · show (cur.x - e.x).natAbs + (cur.y - 1 - e.y).natAbs = rp
          omega
    · refine toward_goal_added t cur (Node.mk 0 0 0 (cur.x - 1) cur.y 0 (some cur))
        e rp (Or.inr (Or.inr (Or.inl rfl))) ?_ ?_ hclosed1
      · show 0 ≤ cur.x - 1 ∧ cur.x - 1 ≤ t.config.GridWidth - 1 ∧ 0 ≤ cur.y ∧
          cur.y ≤ t.config.GridHeight - 1
        omega
      · show (cur.x - 1 - e.x).natAbs + (cur.y - e.y).natAbs = rp
        omega
  · intro n hn
    rw [postState_closedList] at hn
    rcases (mem_wsAdd _ _ _).mp hn with hold | rfl
    · have := hclosed n hold
      omega
    · omega

theorem searchLoop_descent (s e : Node) :
    ∀ (r : Nat), ∀ (fuel : Nat) (t : PathFinder), r + 1 ≤ fuel → descInv s e r t →
      ∃ c, (searchLoop none StepsNoLimit fuel t).1 = FindResult.ok (getNodePath c) ∧
        goodChain s e c ∧ manhattan c e = 0 := by
  intro r
  induction r with
  | zero =>
    intro fuel t hf hinv
    obtain ⟨hw, hend, heb, hopen, ⟨wn, hwn, hwman⟩, hclosed⟩ := hinv
    have hne : t.openList ≠ [] := fun hnil => by rw [hnil] at hwn; simp at hwn
    obtain ⟨cur, hcur⟩ := GetMinFNode_of_ne_nil hne
    have hcmem := GetMinFNode_mem hcur
    obtain ⟨hcb, hcg, hch, hcf, hcge, hcgc⟩ := hopen cur hcmem
    have hmin := GetMinFNode_min hcur wn hwn
    obtain ⟨hb2, hg2, hh2, hwf, hge2, hgc2⟩ := hopen wn hwn
    have hman0 : manhattan cur e = 0 := by
      rw [hcf, hwf, hwman] at hmin
      omega
    have hgcc := hcgc hman0
    cases fuel with
    | zero => omega
    | succ f =>
      have hE : wsIsEmpty t.openList = false := (wsIsEmpty_false _).mpr hne
      rw [searchLoop_step none StepsNoLimit f hE hcur]
      have hgoal : IsEndNode none cur t.endNode = true := by
        rw [hend]
        exact IsEndNode_none_iff.mpr (manhattan_eq_zero_iff.mp hman0)
      rw [if_pos hgoal]
      exact ⟨cur, rfl, hgcc, hman0⟩
  | succ rp ih =>
    intro fuel t hf hinv
    obtain ⟨hw, hend, heb, hopen, ⟨wn, hwn, hwman⟩, hclosed⟩ := hinv
    have hne : t.openList ≠ [] := fun hnil => by rw [hnil] at hwn; simp at hwn
    obtain ⟨cur, hcur⟩ := GetMinFNode_of_ne_nil hne
    have hcmem := GetMinFNode_mem hcur
    obtain ⟨hcb, hcg, hch, hcf, hcge, hcgc⟩ := hopen cur hcmem
    have hmin := GetMinFNode_min hcur wn hwn
    obtain ⟨hb2, hg2, hh2, hwf, hge2, hgc2⟩ := hopen wn hwn
    have hmanc : manhattan cur e = rp + 1 := by
      rw [hcf, hwf, hwman] at hmin
      omega
    have hgcc := hcgc hmanc
    cases fuel with
    | zero => omega
    | succ f =>
      have hE : wsIsEmpty t.openList = false := (wsIsEmpty_false _).mpr hne
      rw [searchLoop_step none StepsNoLimit f hE hcur]
      have hgoalf : ¬(IsEndNode none cur t.endNode = true) := by
        rw [hend]
        intro hcontra
        have h0 := IsEndNode_none_iff.mp hcontra
        rw [← manhattan_eq_zero_iff] at h0
        omega
      rw [if_neg hgoalf]
      rw [if_neg (fun hcontra => absurd hcontra.1 (by decide))]
      apply ih f (postState none t cur) (by omega)
      apply expand_preserves s e rp t cur hw hend heb hcb hgcc hmanc
      · intro n hn
        have hsub := (mem_wsRemove _ _ _).mp hn
        obtain ⟨hb4, hg4, hh4, hf4, hge4, _⟩ := hopen n hsub.1
        exact ⟨hb4, hg4, hh4, hf4, hge4⟩
      · intro n hn
        have := hclosed n hn
        omega

/-- C3 (amended): on an obstacle-free, unweighted grid with no context,
for every in-bounds start and end pair with distinct coordinates (the
start being a host-constructed node, hence ancestor-less), `FindPath`
succeeds with a sequence whose length equals the Manhattan distance
between start and end, whose first element is the end cell (terminal
first, start excluded), and whose consecutive elements are 4-adjacent. -/
theorem C3_empty_grid_manhattan_path (cfg : Config) (a : PathFinder) (s e : Node)
    (hNew : New cfg = some a)
    (hinv0 : cfg.InvalidNodes = [])
    (hw0 : cfg.WeightedNodes = [])
    (hsb : 0 ≤ s.x ∧ s.x ≤ cfg.GridWidth - 1 ∧ 0 ≤ s.y ∧
      s.y ≤ cfg.GridHeight - 1)
    (heb : 0 ≤ e.x ∧ e.x ≤ cfg.GridWidth - 1 ∧ 0 ≤ e.y ∧
      e.y ≤ cfg.GridHeight - 1)
    (hspar : s.parent = none)
    (hne : ¬(s.x = e.x ∧ s.y = e.y)) :
    ∃ p, (FindPath a none s e).1 = FindResult.ok p ∧
      p.length = manhattan s e ∧
      (∃ c, p.head? = some c ∧ c.x = e.x ∧ c.y = e.y) ∧
      List.Chain' adjacent p ∧
      (∀ n ∈ p, ¬(n.x = s.x ∧ n.y = s.y)) := by
  obtain ⟨hacfg, haopen, haclosed, hwge, hhge⟩ := New_elim hNew
  have hD1 : 1 ≤ manhattan s e := by
    rcases Nat.eq_zero_or_pos (manhattan s e) with h0 | h1
    · exact absurd (manhattan_eq_zero_iff.mp h0) hne
    · exact h1
  have hopen0 : (initState a s e).openList = [s] := by
    rw [show (initState a s e).openList = wsAdd a.openList s from rfl, haopen]
    rfl
  have hcl0 : (initState a s e).closedList = [] := by
    rw [show (initState a s e).closedList = a.closedList from rfl, haclosed, hinv0]
  have hcfg0 : (initState a s e).config = cfg := by
    rw [show (initState a s e).config = a.config from rfl, hacfg]
  have hE : wsIsEmpty (initState a s e).openList = false := by
    rw [hopen0]
    rfl
  have hmin : GetMinFNode (initState a s e).openList = some s := by
    rw [hopen0]
    rfl
  have hfuel : loopFuel (initState a s e) =
      (cfg.GridWidth * cfg.GridHeight).toNat + 1 := by
    rw [loopFuel, hcfg0]
  have hfbound : manhattan s e ≤ (cfg.GridWidth * cfg.GridHeight).toNat := by
    have hprod : 0 ≤ (cfg.GridWidth - 1) * (cfg.GridHeight - 1) :=
      mul_nonneg (by omega) (by omega)
    have hexp : (cfg.GridWidth - 1) * (cfg.GridHeight - 1) =
        cfg.GridWidth * cfg.GridHeight - cfg.GridWidth - cfg.GridHeight + 1 := by
      ring
    rw [manhattan]
    omega
  have hinvpost : descInv s e (manhattan s e - 1) (postState none (initState a s e) s) := by
    apply expand_preserves s e (manhattan s e - 1) (initState a s e) s
    · rw [hcfg0]
      exact hw0
    · rfl
    · rw [hcfg0]
      exact heb
    · rw [hcfg0]
      exact hsb
    · exact (goodChain_parent_none hspar).mpr rfl
    · omega
    · intro n hn
      rw [hopen0] at hn
      simp [wsRemove, sameCoord] at hn
    · intro n hn
      rw [hcl0] at hn
      simp at hn
  obtain ⟨c, hres, hgcc, hman0⟩ := searchLoop_descent s e (manhattan s e - 1)
    ((cfg.GridWidth * cfg.GridHeight).toNat) (postState none (initState a s e) s)
    (by omega) hinvpost
  have hcp : c.parent ≠ none := by
    intro hp
    have hcs := (goodChain_parent_none hp).mp hgcc
    rw [hcs] at hman0
    omega
  have hfinal : (FindPath a none s e).1 = FindResult.ok (getNodePath c) := by
    show (searchLoop none StepsNoLimit (loopFuel (initState a s e))
      (initState a s e)).1 = _
    rw [hfuel, searchLoop_step none StepsNoLimit _ hE hmin]
    have hgne : ¬(IsEndNode none s (initState a s e).endNode = true) :=
      fun hcontra => hne (IsEndNode_none_iff.mp hcontra)
    have hcne : ¬(StepsNoLimit > 0 ∧
        (midState (initState a s e) s).steps ≥ StepsNoLimit) :=
      fun hcontra => absurd hcontra.1 (by decide)
    rw [if_neg hgne, if_neg hcne]
    exact hres
  refine ⟨getNodePath c, hfinal, ?_, ?_, goodChain_path_adjacent c hgcc, ?_⟩
  · have := goodChain_length c hgcc hcp
    omega
  · exact ⟨c, getNodePath_head c, manhattan_eq_zero_iff.mp hman0⟩
  · intro n hn hcontra
    have hlt := goodChain_path_lt c hgcc hcp n hn
    have hcongr : manhattan n e = manhattan s e :=
      manhattan_coord_congr e ((sameCoord_iff n s).mpr hcontra)
    omega

/-- Witness for C3 (amended) at a concrete input: the spec's own 3x3
scenario, start (0,0), end (2,2). -/
theorem C3_witness :
    ∃ p, (FindPath pf3 none (nodeAt 0 0) (nodeAt 2 2)).1 = FindResult.ok p ∧
      p.length = manhattan (nodeAt 0 0) (nodeAt 2 2) ∧
      (∃ c, p.head? = some c ∧ c.x = (nodeAt 2 2).x ∧ c.y = (nodeAt 2 2).y) ∧
      List.Chain' adjacent p ∧
      (∀ n ∈ p, ¬(n.x = (nodeAt 0 0).x ∧ n.y = (nodeAt 0 0).y)) :=
  C3_empty_grid_manhattan_path cfg3 pf3 (nodeAt 0 0) (nodeAt 2 2) rfl rfl rfl
    (by decide) (by decide) rfl (by decide)
